import Mathlib

/-!
Verification of the Financial Management System specification against the
repository's source.  The parts of the pipeline present in the repository
(the React front end: expense aggregation in `ExpensePieChart.js`, the
upload handler in `StatementUpload.js`, and the smart-goal form validation)
are embedded directly from the source.  The back-end stages the repository
does not ship (field normalizer, categorizer, row-failure policy) are
modelled from the specification text, and each such definition is marked
`Modelled from the spec:` in its doc comment.

JavaScript numbers are modelled as exact rationals (ℚ); `toFixed(2)` is
modelled as exact half-up rounding at two decimal places; JS string
truthiness (the empty string is falsy) is modelled explicitly wherever the
source relies on it.
-/

namespace FinSys

/-! ### Data model of the expense aggregation (`frontend/src/ExpensePieChart.js`)

A stored transaction row as selected by
`supabase.from("transactions").select("amount, transaction_type, category_id, date")`;
every selected column may be `null` in the store, except `amount` which the
code always feeds to `Math.abs`. -/

structure StoredTx where
  amount : ℚ
  transaction_type : Option String
  category_id : Option String
  date : Option String
deriving DecidableEq, Repr

/-- A category row as returned by the `/categories` endpoint. -/
structure Category where
  category_id : String
  category_name : String
deriving DecidableEq, Repr

/-- One entry of the Recharts `chartData` array: `\x7b name, value \x7d`. -/
structure ChartEntry where
  name : String
  value : ℚ
deriving DecidableEq, Repr

/-- ASCII lower-casing of one character, as JS `toLowerCase` acts on the
ASCII range relevant here. -/
def asciiLower (c : Char) : Char :=
  if 'A' ≤ c ∧ c ≤ 'Z' then Char.ofNat (c.toNat + 32) else c

/-- Model of JS `String.prototype.toLowerCase` (ASCII). -/
def jsToLower (s : String) : String := String.mk (s.data.map asciiLower)

/-- Model of JS `String.prototype.trim`: drop whitespace from both ends. -/
def jsTrim (s : String) : String :=
  String.mk (((s.data.dropWhile Char.isWhitespace).reverse.dropWhile
    Char.isWhitespace).reverse)

/-- `tx.transaction_type && tx.transaction_type.trim().toLowerCase() === 'debit'`
(ExpensePieChart.js line 97).  A `null` value short-circuits to `false`; the
empty string is falsy in JS but also fails the comparison, so the model
folds both into the string comparison. -/
def isDebit (t : StoredTx) : Bool :=
  match t.transaction_type with
  | none => false
  | some s => jsToLower (jsTrim s) == "debit"

/-- `tx.date && tx.date.slice(0, 7)` (line 98): `null` or the falsy empty
string yield no month token, otherwise the first seven characters. -/
def monthToken (t : StoredTx) : Option String :=
  match t.date with
  | none => none
  | some d => if d = "" then none else some (d.take 7)

/-- `selectedMonths.length === 0 || (txMonth && selectedMonths.includes(txMonth))`
(line 99). -/
def inSelectedMonths (selectedMonths : List String) (t : StoredTx) : Bool :=
  selectedMonths.isEmpty ||
    (match monthToken t with
     | some m => selectedMonths.contains m
     | none => false)

/-- The `expenses` array (lines 96-101): keep a transaction iff it is a
Debit and passes the month filter. -/
def expensesOf (txs : List StoredTx) (selectedMonths : List String) : List StoredTx :=
  txs.filter fun t => isDebit t && inSelectedMonths selectedMonths t

/-- `categoryMap[cat.category_id] = cat.category_name` over `categories.forEach`
(lines 87-90): a plain JS object, so a later category with the same id
overwrites an earlier one.  Looking up a `null` `category_id` finds no entry. -/
def categoryMapLookup (cats : List Category) (cid : Option String) : Option String :=
  match cid with
  | none => none
  | some c => ((cats.filter fun k => k.category_id = c).getLast?).map Category.category_name

/-- `categoryMap[tx.category_id] || "Uncategorized"` (line 109).  JS `||`
falls through both on a missing key and on a falsy mapped value, so an
empty `category_name` also produces `"Uncategorized"`. -/
def resolveCategoryName (cats : List Category) (cid : Option String) : String :=
  match categoryMapLookup cats cid with
  | none => "Uncategorized"
  | some n => if n = "" then "Uncategorized" else n

/-- Association-list lookup used to model the `categoryTotals` JS object. -/
def lookupTotal : List (String × ℚ) → String → Option ℚ
  | [], _ => none
  | (k, w) :: rest, n => if k = n then some w else lookupTotal rest n

/-- Overwrite the (first) entry for an existing key, keeping its position;
models assignment to an existing JS object key. -/
def setEntry : List (String × ℚ) → String → ℚ → List (String × ℚ)
  | [], _, _ => []
  | (k, w) :: rest, n, v => if k = n then (k, v) :: rest else (k, w) :: setEntry rest n v

/-- One iteration of the grouping loop (lines 114-118):
`if (categoryTotals[name]) \x7b += amount \x7d else \x7b = amount \x7d`.
The truthiness test means a present-but-zero total takes the assignment
branch; a missing key appends a new entry in insertion order. -/
def bumpTotals (m : List (String × ℚ)) (n : String) (a : ℚ) : List (String × ℚ) :=
  match lookupTotal m n with
  | some v => if v ≠ 0 then setEntry m n (v + a) else setEntry m n a
  | none => m ++ [(n, a)]

/-- The `categoryTotals` object after `expenses.forEach` (lines 107-119);
each transaction contributes `Math.abs(tx.amount)` to its resolved
category name. -/
def categoryTotals (cats : List Category) (expenses : List StoredTx) : List (String × ℚ) :=
  expenses.foldl (fun m t => bumpTotals m (resolveCategoryName cats t.category_id) |t.amount|) []

/-- Model of `parseFloat(value.toFixed(2))` (line 124): exact rounding of a
rational to two decimal places, ties rounded up. -/
def toFixed2 (q : ℚ) : ℚ := (round (q * 100) : ℚ) / 100

/-- `chartData` (lines 122-128): map the totals object to entries with
2-decimal values, then `sort((a, b) => b.value - a.value)` — descending by
value. -/
def chartDataOf (cats : List Category) (txs : List StoredTx) (filt : List String) :
    List ChartEntry :=
  (((categoryTotals cats (expensesOf txs filt)).map
      fun p => ChartEntry.mk p.1 (toFixed2 p.2))).mergeSort
    fun a b => decide (b.value ≤ a.value)

/-- The displayed total (line 256):
`data.reduce((sum, item) => sum + item.value, 0)`. -/
def displayedTotalExpenses (cats : List Category) (txs : List StoredTx)
    (filt : List String) : ℚ :=
  (chartDataOf cats txs filt).foldl (fun s e => s + e.value) 0

/-- Mathematical per-category total used in the theorem statements: the sum
of amount magnitudes over the filtered expenses resolving to a given name. -/
def directCategoryTotal (cats : List Category) (expenses : List StoredTx) (n : String) : ℚ :=
  ((expenses.filter fun t => resolveCategoryName cats t.category_id = n).map
    fun t => |t.amount|).sum

/-- A rational that is a whole number of cents, i.e. has at most two
fractional digits — the data-model invariant of §3 for stored amounts. -/
def IsCents (q : ℚ) : Prop := ∃ n : ℤ, q = (n : ℚ) / 100

/-! ### Upload component state (`frontend/src/StatementUpload.js`)

The component state relevant to the messages: the number of transactions
held for display, and the `success` and `error` message strings (the empty
string means "no message shown", since the JSX guards both with `&&`). -/

structure UploadState where
  insertedShown : Nat
  success : String
  error : String
deriving DecidableEq, Repr

/-- JS `a || b` on strings: the empty string is falsy. -/
def jsOr (a b : String) : String := if a ≠ "" then a else b

/-- Outcome of the network interaction during one submit:
either the POST to `:8000/parse-statement` resolves (with a response
`message` field, empty when absent, and the inserted-row count), or it
rejects and the fallback POST to `:8001` inside the catch block resolves
(with the rejection's `detail`/`error` response fields, empty when absent),
or it rejects and the fallback POST rejects as well. -/
inductive UploadOutcome where
  | ok (message : String) (inserted : Nat)
  | failThenRetryOk (d1 : String) (detailField : String) (errorField : String)
  | failThenRetryFails (d1 : String)
deriving DecidableEq, Repr

/-- `handleSubmit` of `frontend/src/StatementUpload.js` (lines 12-39) as a
state transition.  With no file selected only `error` is set (line 14).
On success: transactions, `success := res.data?.message || Inserted N`,
`error := ""` (lines 22-25).  On failure the catch block (lines 26-37)
first sets `error := detail`, then awaits the fallback POST: if that
resolves it clears the transactions, sets `success := "Upload successful."`
and finally `error := detail || error || "Upload failed."`; if it rejects,
execution stops after the first `setError`. -/
def handleSubmit (prev : UploadState) (fileSelected : Bool) (o : UploadOutcome) : UploadState :=
  if !fileSelected then { prev with error := "Select a file." }
  else
    match o with
    | .ok msg n =>
        { insertedShown := n
          success := jsOr msg ("Inserted " ++ toString n ++ " transactions.")
          error := "" }
    | .failThenRetryOk _ df ef =>
        { insertedShown := 0
          success := "Upload successful."
          error := jsOr df (jsOr ef "Upload failed.") }
    | .failThenRetryFails d1 => { prev with error := d1 }

/-! ### Smart-goal form validation (`frontend/src/TransactionTable.js`, `SmartGoalsModal`)

The form holds raw strings; `parseFloat` is a JS builtin and is modelled as
a parameter `pf : String → Option ℚ`, where `none` stands for `NaN`. -/

structure GoalForm where
  name : String
  target_amount : String
  income_allocation : String
deriving DecidableEq, Repr

/-- `validate()` (lines 89-96): `some msg` is the returned error string,
`none` the JS `null`.  `!form.name` holds exactly for the empty string. -/
def validateGoal (pf : String → Option ℚ) (f : GoalForm) : Option String :=
  if f.name = "" ∨ 50 < f.name.length then some "name required (max 50 chars)"
  else
    match pf f.target_amount with
    | none => some "target_amount must be > 1"
    | some ta =>
      if ta ≤ 1 then some "target_amount must be > 1"
      else
        match pf f.income_allocation with
        | none => some "income_allocation must be 0-99"
        | some ia =>
          if ia < 0 ∨ 99 < ia then some "income_allocation must be 0-99" else none

/-- `submitForm` (lines 98-108) sends the request iff `validate()` returned
`null`: `if (err) return alert(err);` followed unconditionally by the
axios call. -/
def goalRequestSent (pf : String → Option ℚ) (f : GoalForm) : Bool :=
  (validateGoal pf f).isNone

/-! ### Pipeline stages absent from the repository, modelled from the spec -/

/-- Direction enum of the canonical Transaction (§3). -/
inductive TxDirection where
  | Credit
  | Debit
deriving DecidableEq, Repr

/-- Canonical Transaction after normalization (§3); `category_id` is
`none` until the Categorizer runs. -/
structure PipelineTx where
  date : String
  description : String
  amount : ℚ
  direction : TxDirection
  category_id : Option String
deriving DecidableEq, Repr

/-- Modelled from the spec: the characters §4.2 says decimal normalization
strips — thousands separators (","), currency symbols and whitespace. -/
def isFormattingChar (c : Char) : Bool :=
  c = ',' || c = '$' || c.isWhitespace

/-- Modelled from the spec: remove formatting characters from a raw cell. -/
def stripFormatting (cs : List Char) : List Char :=
  cs.filter fun c => !isFormattingChar c

/-- Value of a digit string read left to right. -/
def digitsNat (cs : List Char) : Nat :=
  cs.foldl (fun n c => 10 * n + (c.toNat - 48)) 0

/-- Modelled from the spec: parse a cleaned cell as an unsigned decimal
number (digits with at most one decimal point); `none` is the
`MalformedAmountError` case of §4.2. -/
def parseDecimalChars (cs : List Char) : Option ℚ :=
  match cs.span Char.isDigit with
  | (ip, []) => if ip.isEmpty then none else some (digitsNat ip)
  | (ip, c :: fp) =>
    if c = '.' ∧ (¬ ip.isEmpty ∨ ¬ fp.isEmpty) ∧ fp.all Char.isDigit then
      some ((digitsNat ip : ℚ) + (digitsNat fp : ℚ) / (10 : ℚ) ^ fp.length)
    else none

/-- Modelled from the spec: the two negative-value conventions of §4.2 —
surrounding parentheses, or a leading minus sign.  Returns the remaining
numeric body and whether a negative convention was present. -/
def splitNegativeConvention : List Char → List Char × Bool
  | [] => ([], false)
  | c :: rest =>
    if c = '(' then
      if rest.getLast? = some ')' then (rest.dropLast, true) else (c :: rest, false)
    else if c = '-' then (rest, true)
    else (c :: rest, false)

/-- Round-half-even to an integer (§3: monetary rounding). -/
def roundHalfEven (x : ℚ) : ℤ :=
  if x - ⌊x⌋ < 1/2 then ⌊x⌋
  else if 1/2 < x - ⌊x⌋ then ⌊x⌋ + 1
  else if Even ⌊x⌋ then ⌊x⌋ else ⌊x⌋ + 1

/-- Round-half-even at two fractional digits (§3). -/
def round2even (q : ℚ) : ℚ := (roundHalfEven (q * 100) : ℚ) / 100

/-- Modelled from the spec: §4.2 amount-cell normalization for a signed
amount column.  Strip formatting, detect a negative convention, parse the
decimal body; zero amounts are rejected (§4.2), negative conventions yield
a Debit and the magnitude, otherwise a Credit. -/
def normalizeAmountCell (cs : List Char) : Option (ℚ × TxDirection) :=
  let stripped := stripFormatting cs
  let split := splitNegativeConvention stripped
  match parseDecimalChars split.1 with
  | none => none
  | some q =>
    if q = 0 then none
    else some (round2even q, if split.2 then TxDirection.Debit else TxDirection.Credit)

/-- Modelled from the spec: §4.3 threshold policy of the Categorizer.  The
classifier handle is `predict : description → (label, confidence)`; the
label-to-id map resolves recognized labels; an unrecognized label or a
below-threshold confidence yields the fallback category id. -/
def categorizeTx (predict : String → String × ℚ) (labelToCategory : String → Option String)
    (threshold : ℚ) (fallbackId : String) (t : PipelineTx) : PipelineTx :=
  let p := predict t.description
  if threshold ≤ p.2 then
    { t with category_id := some ((labelToCategory p.1).getD fallbackId) }
  else
    { t with category_id := some fallbackId }

/-- Modelled from the spec: the Categorizer maps the policy over the batch. -/
def categorizeAll (predict : String → String × ℚ) (labelToCategory : String → Option String)
    (threshold : ℚ) (fallbackId : String) (ts : List PipelineTx) : List PipelineTx :=
  ts.map (categorizeTx predict labelToCategory threshold fallbackId)

/-- A rejected row: its original index and the failure reason (§4.2). -/
structure RowError where
  rowIndex : Nat
  reason : String
deriving DecidableEq, Repr

/-- Modelled from the spec: §4.2 row-level partial-failure policy.  Each
row is normalized independently by `f`; successes are collected in order,
failures are recorded with their original row index and reason. -/
def normalizeAll (f : α → Except String β) : Nat → List α → List β × List RowError
  | _, [] => ([], [])
  | i, r :: rs =>
    let rest := normalizeAll f (i + 1) rs
    match f r with
    | .ok t => (t :: rest.1, rest.2)
    | .error msg => (rest.1, ⟨i, msg⟩ :: rest.2)

/-- Modelled from the spec: the overall normalization call fails with
`NoValidRowsError` only when zero valid transactions were extracted. -/
def normalizeBatch (f : α → Except String β) (rows : List α) :
    Except String (List β × List RowError) :=
  let r := normalizeAll f 0 rows
  if r.1.isEmpty then .error "NoValidRowsError" else .ok r

/-! ### Helper lemmas -/

theorem normalizeAll_fst {α β : Type} (f : α → Except String β) (i : Nat) (rows : List α) :
    (normalizeAll f i rows).1 = rows.filterMap fun r => (f r).toOption := by
  induction rows generalizing i with
  | nil => rfl
  | cons r rs ih =>
    simp only [normalizeAll, List.filterMap_cons]
    cases hf : f r <;> simp [Except.toOption, hf, ih]

theorem normalizeAll_snd {α β : Type} (f : α → Except String β) (i : Nat) (rows : List α) :
    (normalizeAll f i rows).2 = (rows.enumFrom i).filterMap fun p =>
      match f p.2 with
      | Except.ok _ => none
      | Except.error m => some ⟨p.1, m⟩ := by
  induction rows generalizing i with
  | nil => rfl
  | cons r rs ih =>
    simp only [normalizeAll, List.enumFrom, List.filterMap_cons]
    cases hf : f r <;> simp [hf, ih]

/-! ### Association-list lemmas for the `categoryTotals` object -/

theorem lookupTotal_append (m l : List (String × ℚ)) (n : String) :
    lookupTotal (m ++ l) n =
      match lookupTotal m n with
      | some v => some v
      | none => lookupTotal l n := by
  induction m with
  | nil => rfl
  | cons p rest ih =>
    rcases p with ⟨k, w⟩
    by_cases h : k = n
    · simp [lookupTotal, h]
    · simp [lookupTotal, h, ih]

theorem lookupTotal_setEntry_self (m : List (String × ℚ)) (n : String) (v : ℚ)
    (h : (lookupTotal m n).isSome = true) :
    lookupTotal (setEntry m n v) n = some v := by
  induction m with
  | nil => simp [lookupTotal] at h
  | cons p rest ih =>
    rcases p with ⟨k, w⟩
    simp only [setEntry]
    by_cases hk : k = n
    · rw [if_pos hk]
      simp [lookupTotal, hk]
    · rw [if_neg hk]
      simp only [lookupTotal, if_neg hk] at h ⊢
      exact ih h

theorem lookupTotal_setEntry_ne (m : List (String × ℚ)) (n n' : String) (v : ℚ)
    (h : n' ≠ n) :
    lookupTotal (setEntry m n v) n' = lookupTotal m n' := by
  induction m with
  | nil => rfl
  | cons p rest ih =>
    rcases p with ⟨k, w⟩
    simp only [setEntry]
    by_cases hk : k = n
    · rw [if_pos hk]
      have hkn : ¬ (k = n') := by rw [hk]; exact fun hh => h hh.symm
      simp only [lookupTotal, if_neg hkn]
    · rw [if_neg hk]
      simp only [lookupTotal]
      by_cases hk' : k = n'
      · rw [if_pos hk', if_pos hk']
      · rw [if_neg hk', if_neg hk']
        exact ih

theorem setEntry_keys (m : List (String × ℚ)) (n : String) (v : ℚ) :
    (setEntry m n v).map Prod.fst = m.map Prod.fst := by
  induction m with
  | nil => rfl
  | cons p rest ih =>
    rcases p with ⟨k, w⟩
    simp only [setEntry]
    by_cases hk : k = n
    · rw [if_pos hk]
      simp
    · rw [if_neg hk]
      simp [ih]

theorem lookupTotal_eq_none_iff (m : List (String × ℚ)) (n : String) :
    lookupTotal m n = none ↔ n ∉ m.map Prod.fst := by
  induction m with
  | nil => simp [lookupTotal]
  | cons p rest ih =>
    rcases p with ⟨k, w⟩
    simp only [lookupTotal, List.map_cons, List.mem_cons]
    by_cases hk : k = n
    · rw [if_pos hk]
      simp [hk]
    · rw [if_neg hk]
      rw [ih]
      constructor
      · intro hnot
        rintro (rfl | hmem)
        · exact hk rfl
        · exact hnot hmem
      · intro hnot hmem
        exact hnot (Or.inr hmem)

theorem lookupTotal_isSome_iff (m : List (String × ℚ)) (n : String) :
    (lookupTotal m n).isSome = true ↔ n ∈ m.map Prod.fst := by
  rw [Option.isSome_iff_ne_none, ne_eq, lookupTotal_eq_none_iff, not_not]

theorem bumpTotals_lookup_self (m : List (String × ℚ)) (n : String) (a : ℚ) :
    lookupTotal (bumpTotals m n a) n = some ((lookupTotal m n).getD 0 + a) := by
  unfold bumpTotals
  cases hl : lookupTotal m n with
  | none =>
    rw [lookupTotal_append, hl]
    simp [lookupTotal]
  | some v =>
    dsimp only
    have hs : (lookupTotal m n).isSome = true := by rw [hl]; rfl
    by_cases hv : v ≠ 0
    · rw [if_pos hv, lookupTotal_setEntry_self m n _ hs]
      simp
    · rw [if_neg hv, lookupTotal_setEntry_self m n _ hs]
      push_neg at hv
      simp [hv]

theorem bumpTotals_lookup_ne (m : List (String × ℚ)) (n n' : String) (a : ℚ)
    (h : n' ≠ n) :
    lookupTotal (bumpTotals m n a) n' = lookupTotal m n' := by
  unfold bumpTotals
  cases hl : lookupTotal m n with
  | none =>
    rw [lookupTotal_append]
    cases hl' : lookupTotal m n' with
    | some w => rfl
    | none =>
      simp [lookupTotal, Ne.symm h]
  | some v =>
    dsimp only
    by_cases hv : v ≠ 0
    · rw [if_pos hv]
      exact lookupTotal_setEntry_ne m n n' _ h
    · rw [if_neg hv]
      exact lookupTotal_setEntry_ne m n n' _ h

theorem bumpTotals_keys (m : List (String × ℚ)) (n : String) (a : ℚ) :
    (bumpTotals m n a).map Prod.fst =
      if n ∈ m.map Prod.fst then m.map Prod.fst else m.map Prod.fst ++ [n] := by
  unfold bumpTotals
  cases hl : lookupTotal m n with
  | none =>
    rw [if_neg ((lookupTotal_eq_none_iff m n).mp hl)]
    simp
  | some v =>
    have hmem : n ∈ m.map Prod.fst := by
      rw [← lookupTotal_isSome_iff, hl]
      rfl
    rw [if_pos hmem]
    dsimp only
    by_cases hv : v ≠ 0
    · rw [if_pos hv]
      exact setEntry_keys m n _
    · rw [if_neg hv]
      exact setEntry_keys m n _

theorem bumpTotals_keys_nodup (m : List (String × ℚ)) (n : String) (a : ℚ)
    (h : (m.map Prod.fst).Nodup) :
    ((bumpTotals m n a).map Prod.fst).Nodup := by
  rw [bumpTotals_keys]
  by_cases hmem : n ∈ m.map Prod.fst
  · rw [if_pos hmem]
    exact h
  · rw [if_neg hmem]
    simp [List.nodup_append, h, hmem]

theorem mem_of_nodupkeys_lookup (m : List (String × ℚ))
    (h : (m.map Prod.fst).Nodup) (n : String) (v : ℚ) :
    (n, v) ∈ m ↔ lookupTotal m n = some v := by
  induction m with
  | nil => simp [lookupTotal]
  | cons p rest ih =>
    rcases p with ⟨k, w⟩
    simp only [List.map_cons, List.nodup_cons] at h
    simp only [List.mem_cons, lookupTotal]
    by_cases hk : k = n
    · subst hk
      rw [if_pos rfl]
      constructor
      · rintro (heq | hmem)
        · injection heq with h1 h2
          rw [h2]
        · exact absurd (List.mem_map_of_mem Prod.fst hmem) h.1
      · intro hv
        injection hv with h2
        subst h2
        exact Or.inl rfl
    · rw [if_neg hk]
      rw [← ih h.2]
      constructor
      · rintro (heq | hmem)
        · injection heq with h1 h2
          exact absurd h1.symm hk
        · exact hmem
      · exact Or.inr

/-! ### Summation helper lemmas -/

theorem foldl_add_value_eq_sum (l : List ChartEntry) (s : ℚ) :
    l.foldl (fun a e => a + e.value) s = s + (l.map ChartEntry.value).sum := by
  induction l generalizing s with
  | nil => simp
  | cons e rest ih =>
    simp only [List.foldl_cons, List.map_cons, List.sum_cons, ih]
    ring

theorem sum_map_ite_single (ns : List String) (hnd : ns.Nodup)
    (x : String) (hx : x ∈ ns) (c : ℚ) :
    (ns.map fun n => if x = n then c else 0).sum = c := by
  induction ns with
  | nil => cases hx
  | cons a ns ih =>
    rw [List.nodup_cons] at hnd
    rcases List.mem_cons.mp hx with rfl | hmem
    · simp only [List.map_cons, List.sum_cons, if_pos rfl]
      have hz : (ns.map fun n => if x = n then c else 0) = ns.map fun _ => (0:ℚ) := by
        apply List.map_congr_left
        intro n hn
        rw [if_neg]
        rintro rfl
        exact hnd.1 hn
      rw [hz]
      simp
    · simp only [List.map_cons, List.sum_cons]
      rw [if_neg (by rintro rfl; exact hnd.1 hmem), ih hnd.2 hmem, zero_add]

theorem sum_map_add_split {κ : Type} (ns : List κ) (g h : κ → ℚ) :
    (ns.map fun n => g n + h n).sum = (ns.map g).sum + (ns.map h).sum := by
  induction ns with
  | nil => simp
  | cons a ns ih =>
    simp only [List.map_cons, List.sum_cons, ih]
    ring

theorem sum_over_fibers {γ : Type} (ns : List String) (l : List γ)
    (k : γ → String) (f : γ → ℚ) (hnd : ns.Nodup)
    (hcov : ∀ a ∈ l, k a ∈ ns) :
    (ns.map fun n => ((l.filter fun a => k a = n).map f).sum).sum = (l.map f).sum := by
  induction l with
  | nil => simp
  | cons a l ih =>
    have hka := hcov a (List.mem_cons_self a l)
    have hcov' : ∀ b ∈ l, k b ∈ ns := fun b hb => hcov b (List.mem_cons_of_mem a hb)
    have hstep : ∀ n, (((a :: l).filter fun b => k b = n).map f).sum =
        (if k a = n then f a else 0) + ((l.filter fun b => k b = n).map f).sum := by
      intro n
      by_cases h : k a = n
      · simp [List.filter_cons, h]
      · simp [List.filter_cons, h]
    calc (ns.map fun n => (((a :: l).filter fun b => k b = n).map f).sum).sum
        = (ns.map fun n =>
            (if k a = n then f a else 0) + ((l.filter fun b => k b = n).map f).sum).sum := by
          exact congrArg List.sum (List.map_congr_left fun n _ => hstep n)
      _ = (ns.map fun n => if k a = n then f a else 0).sum +
            (ns.map fun n => ((l.filter fun b => k b = n).map f).sum).sum :=
          sum_map_add_split ns _ _
      _ = f a + (l.map f).sum := by
          rw [sum_map_ite_single ns hnd (k a) hka (f a), ih hcov']
      _ = ((a :: l).map f).sum := by simp

theorem map_snd_eq_map_of_pointwise (m : List (String × ℚ)) (g : String → ℚ)
    (h : ∀ p ∈ m, p.2 = g p.1) :
    m.map Prod.snd = (m.map Prod.fst).map g := by
  induction m with
  | nil => rfl
  | cons p rest ih =>
    simp only [List.map_cons]
    rw [h p (List.mem_cons_self p rest),
      ih fun q hq => h q (List.mem_cons_of_mem p hq)]

/-! ### Cents lemmas -/

theorem IsCents.abs_self {q : ℚ} (h : IsCents q) : IsCents |q| := by
  rcases h with ⟨n, rfl⟩
  refine ⟨|n|, ?_⟩
  rw [abs_div]
  norm_num [Int.cast_abs]

theorem IsCents.add_cents {a b : ℚ} (ha : IsCents a) (hb : IsCents b) :
    IsCents (a + b) := by
  rcases ha with ⟨m, rfl⟩
  rcases hb with ⟨n, rfl⟩
  refine ⟨m + n, ?_⟩
  push_cast
  ring

theorem IsCents.list_sum (l : List ℚ) (h : ∀ x ∈ l, IsCents x) : IsCents l.sum := by
  induction l with
  | nil => exact ⟨0, by norm_num⟩
  | cons a l ih =>
    rw [List.sum_cons]
    exact (h a (List.mem_cons_self a l)).add_cents
      (ih fun x hx => h x (List.mem_cons_of_mem a hx))

theorem toFixed2_of_isCents {q : ℚ} (h : IsCents q) : toFixed2 q = q := by
  rcases h with ⟨n, rfl⟩
  unfold toFixed2
  have hmul : (n:ℚ) / 100 * 100 = (n:ℚ) := by field_simp
  rw [hmul, round_intCast]

/-! ### The `categoryTotals` loop invariant and `chartData` lemmas -/

theorem directCategoryTotal_concat (cats : List Category) (es : List StoredTx)
    (t : StoredTx) (n : String) :
    directCategoryTotal cats (es ++ [t]) n =
      directCategoryTotal cats es n +
        (if resolveCategoryName cats t.category_id = n then |t.amount| else 0) := by
  unfold directCategoryTotal
  rw [List.filter_append]
  by_cases h : resolveCategoryName cats t.category_id = n
  · simp [h]
  · simp [h]

theorem directCategoryTotal_of_not_mem (cats : List Category) (es : List StoredTx)
    (n : String)
    (h : n ∉ es.map fun u => resolveCategoryName cats u.category_id) :
    directCategoryTotal cats es n = 0 := by
  unfold directCategoryTotal
  have hnil : (es.filter fun u => resolveCategoryName cats u.category_id = n) = [] := by
    rw [List.filter_eq_nil_iff]
    intro a ha
    simp only [decide_eq_true_eq]
    intro hh
    exact h (List.mem_map.mpr ⟨a, ha, hh⟩)
  rw [hnil]
  rfl

theorem categoryTotals_concat (cats : List Category) (es : List StoredTx) (t : StoredTx) :
    categoryTotals cats (es ++ [t]) =
      bumpTotals (categoryTotals cats es)
        (resolveCategoryName cats t.category_id) |t.amount| := by
  unfold categoryTotals
  rw [List.foldl_append]
  rfl

theorem categoryTotals_lookup (cats : List Category) (es : List StoredTx) (n : String) :
    lookupTotal (categoryTotals cats es) n =
      if n ∈ es.map (fun u => resolveCategoryName cats u.category_id)
      then some (directCategoryTotal cats es n) else none := by
  induction es using List.reverseRecOn with
  | nil => simp [categoryTotals, lookupTotal]
  | append_singleton es t ih =>
    rw [categoryTotals_concat]
    by_cases hn : n = resolveCategoryName cats t.category_id
    · subst hn
      rw [bumpTotals_lookup_self, ih]
      rw [if_pos (show resolveCategoryName cats t.category_id ∈
            (es ++ [t]).map fun u => resolveCategoryName cats u.category_id by simp)]
      rw [directCategoryTotal_concat, if_pos rfl]
      by_cases hm : resolveCategoryName cats t.category_id ∈
          es.map fun u => resolveCategoryName cats u.category_id
      · rw [if_pos hm]
        simp
      · rw [if_neg hm, directCategoryTotal_of_not_mem cats es _ hm]
        simp
    · rw [bumpTotals_lookup_ne _ _ _ _ hn, ih]
      have hmm : (n ∈ (es ++ [t]).map fun u => resolveCategoryName cats u.category_id) ↔
          (n ∈ es.map fun u => resolveCategoryName cats u.category_id) := by
        simp [hn]
      by_cases hm : n ∈ es.map fun u => resolveCategoryName cats u.category_id
      · rw [if_pos hm, if_pos (hmm.mpr hm), directCategoryTotal_concat,
          if_neg (fun hh => hn hh.symm), add_zero]
      · rw [if_neg hm, if_neg (fun hh => hm (hmm.mp hh))]

theorem categoryTotals_keys_nodup (cats : List Category) (es : List StoredTx) :
    ((categoryTotals cats es).map Prod.fst).Nodup := by
  induction es using List.reverseRecOn with
  | nil => simp [categoryTotals]
  | append_singleton es t ih =>
    rw [categoryTotals_concat]
    exact bumpTotals_keys_nodup _ _ _ ih

theorem categoryTotals_keys_mem (cats : List Category) (es : List StoredTx) (n : String) :
    n ∈ (categoryTotals cats es).map Prod.fst ↔
      n ∈ es.map fun u => resolveCategoryName cats u.category_id := by
  rw [← lookupTotal_isSome_iff, categoryTotals_lookup]
  by_cases hm : n ∈ es.map fun u => resolveCategoryName cats u.category_id
  · simp [hm]
  · simp [hm]

theorem categoryTotals_value (cats : List Category) (es : List StoredTx)
    (p : String × ℚ) (hp : p ∈ categoryTotals cats es) :
    p.2 = directCategoryTotal cats es p.1 := by
  have hl := (mem_of_nodupkeys_lookup _ (categoryTotals_keys_nodup cats es)
    p.1 p.2).mp (by rw [Prod.mk.eta]; exact hp)
  rw [categoryTotals_lookup] at hl
  by_cases hm : p.1 ∈ es.map fun u => resolveCategoryName cats u.category_id
  · rw [if_pos hm] at hl
    injection hl with hh
    exact hh.symm
  · rw [if_neg hm] at hl
    exact absurd hl (by simp)

theorem chartDataOf_sorted_aux (cats : List Category) (txs : List StoredTx)
    (filt : List String) :
    (chartDataOf cats txs filt).Pairwise fun a b => b.value ≤ a.value := by
  have h := @List.sorted_mergeSort ChartEntry
    (fun a b => decide (b.value ≤ a.value))
    (fun a b c hab hbc => by
      simp only [decide_eq_true_eq] at hab hbc ⊢
      exact le_trans hbc hab)
    (fun a b => by
      simp only [Bool.or_eq_true, decide_eq_true_eq]
      exact le_total b.value a.value)
    ((categoryTotals cats (expensesOf txs filt)).map
      fun p => ChartEntry.mk p.1 (toFixed2 p.2))
  exact h.imp fun hab => by simpa using hab

theorem chartDataOf_entries_aux (cats : List Category) (txs : List StoredTx)
    (filt : List String) :
    ∀ e ∈ chartDataOf cats txs filt,
      e.value = toFixed2 (directCategoryTotal cats (expensesOf txs filt) e.name) := by
  intro e he
  rw [chartDataOf, List.mem_mergeSort] at he
  rcases List.mem_map.mp he with ⟨p, hp, rfl⟩
  have hv := categoryTotals_value cats (expensesOf txs filt) p hp
  simp only [ChartEntry.mk.injEq]
  rw [hv]

/-! ### C2, C6, C8 -/

/-- C2: under the §3 data-model invariant that stored amounts have at most
two fractional digits, the displayed total expenses figure equals the sum
of the amount magnitudes over exactly the Debit transactions of the
filtered set. -/
theorem total_expenses_sum (cats : List Category) (txs : List StoredTx)
    (filt : List String) (h : ∀ t ∈ txs, IsCents t.amount) :
    displayedTotalExpenses cats txs filt =
      ((expensesOf txs filt).map fun t => |t.amount|).sum := by
  unfold displayedTotalExpenses
  rw [foldl_add_value_eq_sum, zero_add]
  have hperm : ((chartDataOf cats txs filt).map ChartEntry.value).Perm
      ((((categoryTotals cats (expensesOf txs filt)).map
        fun p => ChartEntry.mk p.1 (toFixed2 p.2))).map ChartEntry.value) :=
    (List.mergeSort_perm _ _).map _
  rw [hperm.sum_eq, List.map_map]
  have hcents : ∀ t ∈ expensesOf txs filt, IsCents t.amount :=
    fun t ht => h t (List.mem_of_mem_filter ht)
  have hdirect : ∀ n, IsCents (directCategoryTotal cats (expensesOf txs filt) n) := by
    intro n
    apply IsCents.list_sum
    intro x hx
    rcases List.mem_map.mp hx with ⟨t, ht, rfl⟩
    exact (hcents t (List.mem_of_mem_filter ht)).abs_self
  have hmapeq : ((categoryTotals cats (expensesOf txs filt)).map
        (ChartEntry.value ∘ fun p => ChartEntry.mk p.1 (toFixed2 p.2))) =
      (categoryTotals cats (expensesOf txs filt)).map Prod.snd := by
    apply List.map_congr_left
    intro p hp
    have hv := categoryTotals_value cats (expensesOf txs filt) p hp
    simp only [Function.comp_apply]
    rw [hv, toFixed2_of_isCents (hdirect p.1), ← hv]
  rw [hmapeq]
  rw [map_snd_eq_map_of_pointwise _ _
    (categoryTotals_value cats (expensesOf txs filt))]
  have hsum := sum_over_fibers ((categoryTotals cats (expensesOf txs filt)).map Prod.fst)
    (expensesOf txs filt) (fun u => resolveCategoryName cats u.category_id)
    (fun t => |t.amount|) (categoryTotals_keys_nodup cats (expensesOf txs filt))
    (fun a ha => (categoryTotals_keys_mem cats (expensesOf txs filt) _).mpr
      (List.mem_map_of_mem _ ha))
  rw [← hsum]
  rfl

/-- Witness for C2 at a concrete input with 2-decimal amounts. -/
theorem total_expenses_sum_witness :
    displayedTotalExpenses [⟨"c1", "Food"⟩]
        [⟨9/2, some "Debit", some "c1", some "2024-01-15"⟩,
         ⟨100, some "Credit", some "c1", some "2024-01-20"⟩] [] =
      ((expensesOf
        [⟨9/2, some "Debit", some "c1", some "2024-01-15"⟩,
         ⟨100, some "Credit", some "c1", some "2024-01-20"⟩] []).map
          fun t => |t.amount|).sum := by
  apply total_expenses_sum
  intro t ht
  fin_cases ht
  · exact ⟨450, by norm_num⟩
  · exact ⟨10000, by norm_num⟩

/-- C6 counterexample: a category whose `category_name` is the empty string
resolves through the map (the lookup succeeds), yet the code groups the
transaction under "Uncategorized" rather than using the mapped name,
because the empty string is falsy in the `||` fallback. -/
theorem category_resolution_counterexample :
    categoryMapLookup [⟨"c1", ""⟩] (some "c1") = some "" ∧
    resolveCategoryName [⟨"c1", ""⟩] (some "c1") = "Uncategorized" ∧
    "Uncategorized" ≠ "" := by
  refine ⟨rfl, rfl, by decide⟩

/-- C6 (amended): a transaction whose `category_id` does not resolve, or
resolves to the empty (JS-falsy) `category_name`, is grouped under
"Uncategorized"; one resolving to a non-empty name uses the mapped name;
and no filtered expense is dropped — its group always appears in the chart
data. -/
theorem category_resolution_amended (cats : List Category) (txs : List StoredTx)
    (filt : List String) :
    (∀ cid, categoryMapLookup cats cid = none →
        resolveCategoryName cats cid = "Uncategorized") ∧
    (∀ cid, categoryMapLookup cats cid = some "" →
        resolveCategoryName cats cid = "Uncategorized") ∧
    (∀ cid n, categoryMapLookup cats cid = some n → n ≠ "" →
        resolveCategoryName cats cid = n) ∧
    (∀ t ∈ expensesOf txs filt, ∃ e ∈ chartDataOf cats txs filt,
        e.name = resolveCategoryName cats t.category_id) := by
  refine ⟨?_, ?_, ?_, ?_⟩
  · intro cid h
    simp [resolveCategoryName, h]
  · intro cid h
    simp [resolveCategoryName, h]
  · intro cid n h hn
    simp [resolveCategoryName, h, hn]
  · intro t ht
    have hmem : resolveCategoryName cats t.category_id ∈
        (expensesOf txs filt).map fun u => resolveCategoryName cats u.category_id :=
      List.mem_map_of_mem _ ht
    have hlk := categoryTotals_lookup cats (expensesOf txs filt)
      (resolveCategoryName cats t.category_id)
    rw [if_pos hmem] at hlk
    have hpair := (mem_of_nodupkeys_lookup _
      (categoryTotals_keys_nodup cats (expensesOf txs filt)) _ _).mpr hlk
    refine ⟨ChartEntry.mk (resolveCategoryName cats t.category_id)
      (toFixed2 (directCategoryTotal cats (expensesOf txs filt)
        (resolveCategoryName cats t.category_id))), ?_, rfl⟩
    rw [chartDataOf, List.mem_mergeSort]
    exact List.mem_map.mpr ⟨_, hpair, rfl⟩

/-- Witness for C6 (amended) at a concrete input. -/
theorem category_resolution_amended_witness :
    resolveCategoryName [⟨"c1", "Food"⟩] (some "zzz") = "Uncategorized" ∧
    resolveCategoryName [⟨"c1", "Food"⟩] (some "c1") = "Food" := by
  have h := category_resolution_amended [⟨"c1", "Food"⟩] [] []
  exact ⟨h.1 (some "zzz") rfl, h.2.2.1 (some "c1") "Food" rfl (by decide)⟩

/-- C8: the chart data is sorted in non-increasing order of value, and each
entry's value is the per-category sum of amount magnitudes rounded to two
decimal places. -/
theorem chart_sorted_and_rounded (cats : List Category) (txs : List StoredTx)
    (filt : List String) :
    ((chartDataOf cats txs filt).Pairwise fun a b => b.value ≤ a.value) ∧
    ∀ e ∈ chartDataOf cats txs filt,
      e.value = toFixed2 (directCategoryTotal cats (expensesOf txs filt) e.name) :=
  ⟨chartDataOf_sorted_aux cats txs filt, chartDataOf_entries_aux cats txs filt⟩

/-- Witness for C8 at a concrete input. -/
theorem chart_sorted_and_rounded_witness :
    (chartDataOf [⟨"c1", "Food"⟩]
      [⟨5, some "Debit", some "c1", some "2024-01-02"⟩] []).Pairwise
        (fun a b => b.value ≤ a.value) :=
  (chart_sorted_and_rounded [⟨"c1", "Food"⟩]
    [⟨5, some "Debit", some "c1", some "2024-01-02"⟩] []).1

/-! ### C1, C4, C5, C7, C9, C10 -/

/-- C1: over any stored transactions, a Debit transaction with a
(non-empty) date is in the filtered expense set iff the month filter is
empty or the first seven characters of its date are in the filter. -/
theorem month_filter_correct (txs : List StoredTx) (filt : List String) (t : StoredTx)
    (d : String) (ht : t ∈ txs) (hdeb : isDebit t = true)
    (hd : t.date = some d) (hne : d ≠ "") :
    t ∈ expensesOf txs filt ↔ (filt = [] ∨ d.take 7 ∈ filt) := by
  have hm : monthToken t = some (d.take 7) := by
    simp [monthToken, hd, hne]
  simp [expensesOf, List.mem_filter, ht, hdeb, inSelectedMonths, hm,
    List.isEmpty_iff]

/-- Witness for C1: with transactions dated 2024-01-15 and 2024-02-10 and
the filter `["2024-01"]`, the February transaction is excluded. -/
theorem month_filter_correct_witness :
    (⟨20, some "Debit", some "c1", some "2024-02-10"⟩ : StoredTx) ∉
      expensesOf
        [⟨9/2, some "Debit", some "c1", some "2024-01-15"⟩,
         ⟨20, some "Debit", some "c1", some "2024-02-10"⟩]
        ["2024-01"] := by
  have h := month_filter_correct
    [⟨9/2, some "Debit", some "c1", some "2024-01-15"⟩,
     ⟨20, some "Debit", some "c1", some "2024-02-10"⟩]
    ["2024-01"]
    ⟨20, some "Debit", some "c1", some "2024-02-10"⟩ "2024-02-10"
    (by simp) (by decide) rfl (by decide)
  intro hmem
  rcases h.mp hmem with h1 | h2
  · exact absurd h1 (by decide)
  · exact absurd h2 (by decide)

/-- C4: every transaction leaving the Categorizer carries a non-null
category id, equal to the predicted category when confidence is at or
above the threshold (falling back for an unrecognized label) and to the
fallback otherwise. -/
theorem categorizer_total_policy (predict : String → String × ℚ)
    (labelToCategory : String → Option String) (threshold : ℚ) (fallbackId : String)
    (ts : List PipelineTx) :
    ∀ u ∈ categorizeAll predict labelToCategory threshold fallbackId ts,
      u.category_id = some
        (if threshold ≤ (predict u.description).2 then
          (labelToCategory (predict u.description).1).getD fallbackId
        else fallbackId) := by
  intro u hu
  rcases List.mem_map.mp hu with ⟨t, -, rfl⟩
  unfold categorizeTx
  by_cases h : threshold ≤ (predict t.description).2 <;> simp [h]

/-- Witness for C4: classifier confidence 0.2 under threshold 0.5 resolves
to the fallback "Uncategorized" category. -/
theorem categorizer_total_policy_witness :
    (categorizeTx (fun _ => ("Dining", 1/5))
        (fun l => if l = "Dining" then some "cat-dining" else none)
        (1/2) "Uncategorized"
        ⟨"2024-01-15", "Coffee Shop", 9/2, TxDirection.Debit, none⟩).category_id
      = some "Uncategorized" := by
  have h := categorizer_total_policy (fun _ => ("Dining", (1:ℚ)/5))
    (fun l => if l = "Dining" then some "cat-dining" else none)
    ((1:ℚ)/2) "Uncategorized"
    [⟨"2024-01-15", "Coffee Shop", 9/2, TxDirection.Debit, none⟩]
    (categorizeTx (fun _ => ("Dining", 1/5))
      (fun l => if l = "Dining" then some "cat-dining" else none)
      (1/2) "Uncategorized"
      ⟨"2024-01-15", "Coffee Shop", 9/2, TxDirection.Debit, none⟩)
    (by simp [categorizeAll])
  rw [h]
  norm_num [categorizeTx]

/-- C5: row normalization follows the partial-failure policy — successes
are kept in order, each failing row is recorded with its original index
and reason, and the batch call succeeds iff at least one row is valid. -/
theorem row_partial_failure {α β : Type} (f : α → Except String β) (rows : List α) :
    (normalizeAll f 0 rows).1 = (rows.filterMap fun r => (f r).toOption) ∧
    (normalizeAll f 0 rows).2 = (rows.enum.filterMap fun p =>
      match f p.2 with
      | Except.ok _ => none
      | Except.error m => some ⟨p.1, m⟩) ∧
    ((normalizeBatch f rows).isOk = true ↔ ∃ r ∈ rows, (f r).isOk = true) := by
  refine ⟨normalizeAll_fst f 0 rows, normalizeAll_snd f 0 rows, ?_⟩
  simp only [normalizeBatch]
  rw [normalizeAll_fst]
  by_cases h : (rows.filterMap fun r => (f r).toOption) = []
  · rw [List.filterMap_eq_nil_iff] at h
    simp only [List.filterMap_eq_nil_iff.mpr h, List.isEmpty_nil, if_true]
    constructor
    · intro hak
      simp [Except.isOk, Except.toBool] at hak
    · rintro ⟨r, hr, hok⟩
      have hnone := h r hr
      cases hf : f r <;>
        simp [hf, Except.toOption, Except.isOk, Except.toBool] at hnone hok
  · have : ¬ (rows.filterMap fun r => (f r).toOption).isEmpty = true := by
      simpa [List.isEmpty_iff] using h
    simp only [this, if_false, if_neg this]
    constructor
    · intro _
      rcases List.exists_mem_of_ne_nil _ h with ⟨b, hb⟩
      rcases List.mem_filterMap.mp hb with ⟨r, hr, hrb⟩
      refine ⟨r, hr, ?_⟩
      cases hf : f r <;> simp [hf, Except.toOption, Except.isOk, Except.toBool] at hrb ⊢
    · intro _; simp [Except.isOk, Except.toBool]

/-- Witness for C5: one failing and one succeeding row — the failing row
is recorded at its index, the batch succeeds. -/
theorem row_partial_failure_witness :
    (normalizeAll (fun n : Nat => if n % 2 = 0 then Except.ok n else Except.error "odd")
      0 [1, 2]).1 = [2] ∧
    (normalizeAll (fun n : Nat => if n % 2 = 0 then Except.ok n else Except.error "odd")
      0 [1, 2]).2 = [⟨0, "odd"⟩] ∧
    (normalizeBatch (fun n : Nat => if n % 2 = 0 then Except.ok n else Except.error "odd")
      [1, 2]).isOk = true := by
  have h := row_partial_failure
    (fun n : Nat => if n % 2 = 0 then Except.ok n else Except.error "odd") [1, 2]
  refine ⟨?_, ?_, ?_⟩
  · rw [h.1]; decide
  · rw [h.2.1]; decide
  · exact h.2.2.mpr ⟨2, by decide, by decide⟩

/-- C7: the expense aggregation is deterministic — two runs on identical
category lists, transaction sets and month filters produce identical chart
data and identical displayed totals (the embedded computation is a pure
function). -/
theorem aggregation_deterministic (c₁ c₂ : List Category) (t₁ t₂ : List StoredTx)
    (f₁ f₂ : List String) (hc : c₁ = c₂) (ht : t₁ = t₂) (hf : f₁ = f₂) :
    chartDataOf c₁ t₁ f₁ = chartDataOf c₂ t₂ f₂ ∧
    displayedTotalExpenses c₁ t₁ f₁ = displayedTotalExpenses c₂ t₂ f₂ := by
  subst hc; subst ht; subst hf; exact ⟨rfl, rfl⟩

/-- Witness for C7 at a concrete input. -/
theorem aggregation_deterministic_witness :
    chartDataOf [⟨"c1", "Food"⟩] [⟨5, some "Debit", some "c1", some "2024-01-02"⟩] [] =
      chartDataOf [⟨"c1", "Food"⟩] [⟨5, some "Debit", some "c1", some "2024-01-02"⟩] [] ∧
    displayedTotalExpenses [⟨"c1", "Food"⟩]
        [⟨5, some "Debit", some "c1", some "2024-01-02"⟩] [] =
      displayedTotalExpenses [⟨"c1", "Food"⟩]
        [⟨5, some "Debit", some "c1", some "2024-01-02"⟩] [] :=
  aggregation_deterministic _ _ _ _ _ _ rfl rfl rfl

/-- C9 (code bug): in `frontend/src/StatementUpload.js`, a submit whose
first POST rejects and whose in-catch fallback POST resolves leaves BOTH
the success message ("Upload successful.") and the error message
("Upload failed.") non-empty, so the two user-facing messages are shown
together after a single completed attempt. -/
theorem upload_failure_sets_both_messages :
    (handleSubmit ⟨0, "", ""⟩ true (.failThenRetryOk "Network Error" "" "")).success
        = "Upload successful." ∧
    (handleSubmit ⟨0, "", ""⟩ true (.failThenRetryOk "Network Error" "" "")).error
        = "Upload failed." ∧
    "Upload successful." ≠ "" ∧ "Upload failed." ≠ "" := by
  refine ⟨rfl, ?_, by decide, by decide⟩
  decide

/-- C10: the smart-goal form request is sent iff the name is non-empty and
at most 50 characters, the target amount parses (`pf` models JS
`parseFloat`, `none` = NaN) to a number strictly greater than 1, and the
income allocation parses to a number between 0 and 99 inclusive; in every
other case `validate` returns an error string. -/
theorem goal_validation_gate (pf : String → Option ℚ) (f : GoalForm) :
    (goalRequestSent pf f = true ↔
      (f.name ≠ "" ∧ f.name.length ≤ 50 ∧
        (∃ ta, pf f.target_amount = some ta ∧ 1 < ta) ∧
        (∃ ia, pf f.income_allocation = some ia ∧ 0 ≤ ia ∧ ia ≤ 99))) ∧
    (goalRequestSent pf f = false → (validateGoal pf f).isSome = true) := by
  constructor
  · unfold goalRequestSent validateGoal
    by_cases hname : f.name = "" ∨ 50 < f.name.length
    · rw [if_pos hname]
      simp only [Option.isNone_some, Bool.false_eq_true, false_iff]
      rintro ⟨hne, hlen, -⟩
      rcases hname with h | h
      · exact hne h
      · omega
    · rw [if_neg hname]
      push_neg at hname
      cases hta : pf f.target_amount with
      | none =>
        simp only [Option.isNone_some, Bool.false_eq_true, false_iff]
        rintro ⟨-, -, ⟨ta', hta', -⟩, -⟩
        exact Option.noConfusion hta'
      | some ta =>
        dsimp only
        by_cases h1 : ta ≤ 1
        · rw [if_pos h1]
          simp only [Option.isNone_some, Bool.false_eq_true, false_iff]
          rintro ⟨-, -, ⟨ta', hta', h1'⟩, -⟩
          cases hta'
          exact absurd h1' (not_lt.mpr h1)
        · rw [if_neg h1]
          cases hia : pf f.income_allocation with
          | none =>
            simp only [Option.isNone_some, Bool.false_eq_true, false_iff]
            rintro ⟨-, -, -, ⟨ia', hia', -, -⟩⟩
            exact Option.noConfusion hia'
          | some ia =>
            dsimp only
            by_cases h2 : ia < 0 ∨ 99 < ia
            · rw [if_pos h2]
              simp only [Option.isNone_some, Bool.false_eq_true, false_iff]
              rintro ⟨-, -, -, ⟨ia', hia', h0', h99'⟩⟩
              cases hia'
              rcases h2 with h | h
              · exact absurd h0' (not_le.mpr h)
              · exact absurd h99' (not_le.mpr h)
            · rw [if_neg h2]
              push_neg at h2
              simp only [Option.isNone_none, eq_self_iff_true, true_iff]
              exact ⟨hname.1, hname.2, ⟨ta, rfl, not_le.mp h1⟩, ⟨ia, rfl, h2.1, h2.2⟩⟩
  · unfold goalRequestSent
    cases validateGoal pf f <;> simp

/-! ### C3: negative conventions in amount normalization -/

theorem parseDecimalChars_mem (body : List Char) (q : ℚ)
    (hp : parseDecimalChars body = some q) :
    ∀ c ∈ body, c.isDigit = true ∨ c = '.' := by
  intro c hc
  unfold parseDecimalChars at hp
  rw [List.span_eq_take_drop] at hp
  have hsplit := List.takeWhile_append_dropWhile Char.isDigit body
  rcases hdw : body.dropWhile Char.isDigit with - | ⟨c', fp⟩
  · left
    have hbody : body.takeWhile Char.isDigit = body := by
      rw [hdw, List.append_nil] at hsplit; exact hsplit
    exact List.mem_takeWhile_imp (hbody ▸ hc)
  · rw [hdw] at hp hsplit
    dsimp only at hp
    by_cases hg : c' = '.' ∧
        (¬ (body.takeWhile Char.isDigit).isEmpty ∨ ¬ fp.isEmpty) ∧ fp.all Char.isDigit
    · rcases List.mem_append.mp (hsplit ▸ hc) with h1 | h2
      · exact Or.inl (List.mem_takeWhile_imp h1)
      · rcases List.mem_cons.mp h2 with rfl | h3
        · exact Or.inr hg.1
        · exact Or.inl (List.all_eq_true.mp hg.2.2 c h3)
    · rw [if_neg hg] at hp
      exact absurd hp (by simp)

theorem digit_not_formatting (c : Char) (h : c.isDigit = true) :
    isFormattingChar c = false := by
  by_contra hne
  rw [Bool.not_eq_false] at hne
  unfold isFormattingChar at hne
  rw [Bool.or_eq_true, Bool.or_eq_true] at hne
  rcases hne with (hc | hc) | hc
  · rw [decide_eq_true_eq] at hc; subst hc; exact absurd h (by decide)
  · rw [decide_eq_true_eq] at hc; subst hc; exact absurd h (by decide)
  · unfold Char.isWhitespace at hc
    rw [Bool.or_eq_true, Bool.or_eq_true, Bool.or_eq_true] at hc
    rcases hc with ((hc | hc) | hc) | hc <;>
      (rw [decide_eq_true_eq] at hc; subst hc; exact absurd h (by decide))

theorem stripFormatting_of_parse (body : List Char) (q : ℚ)
    (hp : parseDecimalChars body = some q) :
    stripFormatting body = body := by
  unfold stripFormatting
  rw [List.filter_eq_self]
  intro c hc
  rcases parseDecimalChars_mem body q hp c hc with hd | rfl
  · rw [Bool.not_eq_true', digit_not_formatting c hd]
  · decide

theorem splitNeg_minus (body : List Char) :
    splitNegativeConvention ('-' :: body) = (body, true) := by
  simp [splitNegativeConvention]

theorem splitNeg_paren (body : List Char) :
    splitNegativeConvention ('(' :: (body ++ [')'])) = (body, true) := by
  simp [splitNegativeConvention, List.getLast?_concat, List.dropLast_concat]

theorem parseDecimalChars_nonneg (body : List Char) (q : ℚ)
    (hp : parseDecimalChars body = some q) : 0 ≤ q := by
  unfold parseDecimalChars at hp
  rcases hsp : body.span Char.isDigit with ⟨ip, dw⟩
  rw [hsp] at hp
  rcases dw with - | ⟨c', fp⟩
  · dsimp only at hp
    rcases Bool.eq_false_or_eq_true ip.isEmpty with h | h
    · rw [if_pos h] at hp
      exact absurd hp (by simp)
    · rw [h] at hp
      rw [if_neg (by simp)] at hp
      cases hp
      positivity
  · dsimp only at hp
    by_cases hg : c' = '.' ∧ (¬ ip.isEmpty ∨ ¬ fp.isEmpty) ∧ fp.all Char.isDigit
    · rw [if_pos hg] at hp
      cases hp
      positivity
    · rw [if_neg hg] at hp
      exact absurd hp (by simp)

theorem roundHalfEven_nonneg (x : ℚ) (hx : 0 ≤ x) : 0 ≤ roundHalfEven x := by
  unfold roundHalfEven
  have hf : (0:ℤ) ≤ ⌊x⌋ := Int.floor_nonneg.mpr hx
  split
  · exact hf
  · split
    · omega
    · split
      · exact hf
      · omega

/-- C3: an amount cell using a negative convention — a leading minus sign
or surrounding parentheses around a decimal body — normalizes to a Debit
whose amount is the magnitude of the number, fixed at two fractional
digits (a nonnegative integer number of cents). -/
theorem negative_convention_debit (body : List Char) (q : ℚ)
    (hp : parseDecimalChars body = some q) (hq : q ≠ 0) :
    normalizeAmountCell ('-' :: body) = some (round2even q, TxDirection.Debit) ∧
    normalizeAmountCell ('(' :: (body ++ [')'])) = some (round2even q, TxDirection.Debit) ∧
    ∃ n : ℤ, 0 ≤ n ∧ round2even q = (n : ℚ) / 100 := by
  have hstrip := stripFormatting_of_parse body q hp
  refine ⟨?_, ?_, ?_⟩
  · simp only [normalizeAmountCell]
    have h1 : stripFormatting ('-' :: body) = '-' :: body := by
      unfold stripFormatting at hstrip ⊢
      rw [List.filter_cons_of_pos (by decide), hstrip]
    rw [h1, splitNeg_minus]
    simp only [hp]
    rw [if_neg hq]
    simp
  · simp only [normalizeAmountCell]
    have h2 : stripFormatting ('(' :: (body ++ [')'])) = '(' :: (body ++ [')']) := by
      unfold stripFormatting at hstrip ⊢
      rw [List.filter_cons_of_pos (by decide), List.filter_append, hstrip,
        List.filter_cons_of_pos (by decide), List.filter_nil]
    rw [h2, splitNeg_paren]
    simp only [hp]
    rw [if_neg hq]
    simp
  · refine ⟨roundHalfEven (q * 100), ?_, rfl⟩
    have hq0 := parseDecimalChars_nonneg body q hp
    exact roundHalfEven_nonneg _ (by positivity)

/-- Witness for C3: `"(250.00)"` yields amount 250.00 and Debit, and
`"-4.50"` yields amount 4.50 and Debit. -/
theorem negative_convention_debit_witness :
    normalizeAmountCell ('(' :: ("250.00".data ++ [')'])) =
      some (250, TxDirection.Debit) ∧
    normalizeAmountCell ('-' :: "4.50".data) = some (9/2, TxDirection.Debit) := by
  have hp1 : parseDecimalChars "250.00".data =
      some (((250:ℕ):ℚ) + ((0:ℕ):ℚ) / (10:ℚ) ^ (2:ℕ)) := rfl
  have hp2 : parseDecimalChars "4.50".data =
      some (((4:ℕ):ℚ) + ((50:ℕ):ℚ) / (10:ℚ) ^ (2:ℕ)) := rfl
  have h1 := negative_convention_debit "250.00".data 250 (by rw [hp1]; norm_num) (by norm_num)
  have h2 := negative_convention_debit "4.50".data (9/2) (by rw [hp2]; norm_num) (by norm_num)
  refine ⟨?_, ?_⟩
  · rw [h1.2.1]
    norm_num [round2even, roundHalfEven]
  · rw [h2.1]
    norm_num [round2even, roundHalfEven]

/-- Witness for C10: a valid form under a concrete parse function passes
the gate. -/
theorem goal_validation_gate_witness :
    goalRequestSent
      (fun s => if s = "2000" then some 2000 else if s = "55" then some 55 else none)
      ⟨"Vacation", "2000", "55"⟩ = true := by
  have h := goal_validation_gate
    (fun s => if s = "2000" then some 2000 else if s = "55" then some 55 else none)
    ⟨"Vacation", "2000", "55"⟩
  exact h.1.mpr ⟨by simp, by decide, ⟨2000, by simp, by norm_num⟩,
    ⟨55, by simp, by norm_num, by norm_num⟩⟩

end FinSys
